import Mathlib

/-!
# Verification of the RunCoach export-recovery scanner

A shallow embedding of `scripts/recover_summarized_exports.py`: the
string/escape-aware brace-balancing scanner (`scan_objects`), the candidate
classifier (`looks_like_activity`), the textual repairer (`light_cleanup`),
Python's `str.find`-based helpers (`str_find`, `find_all`), and the two-tier
recovery pipeline of `main`.

Documents are modelled as `List Char` (the decoded Python text). The strict
JSON parser (`json.loads`) is an external collaborator and is modelled as an
abstract oracle `parse : List Char → Option V`. Machine `int`s are `Int`
(Python integers are unbounded). Python's `s[i]` crashes for `i ≥ len(s)`,
so scanning is clamped to the document length; every call site in the source
passes `end=None`, i.e. scans up to `len(s)` exactly.
-/

namespace RunCoach

/-- Transient state of the brace-balancing automaton in `scan_objects`
(source lines 36): `in_str`/`esc` string context flags, the brace `depth`,
and `obj_start` (`-1` meaning unset, as in the source). -/
structure ScanState where
  in_str : Bool
  esc : Bool
  depth : Int
  obj_start : Int
deriving Repr, DecidableEq

/-- Initial automaton state of `scan_objects` (source line 36). -/
def initState : ScanState := ⟨false, false, 0, -1⟩

/-- One iteration of the `while` loop body of `scan_objects`
(source lines 38-54) on character `c` at absolute offset `i`: the updated
state together with the span `[obj_start, i+1)` yielded at this step, if any. -/
def scanStep (st : ScanState) (i : Nat) (c : Char) : ScanState × Option (Nat × Nat) :=
  if st.in_str then
    if st.esc then ({ st with esc := false }, none)
    else if c = '\\' then ({ st with esc := true }, none)
    else if c = '"' then ({ st with in_str := false }, none)
    else (st, none)
  else if c = '"' then ({ st with in_str := true }, none)
  else if c = '\x7b' then
    ({ st with obj_start := if st.depth = 0 then (i : Int) else st.obj_start,
               depth := st.depth + 1 }, none)
  else if c = '\x7d' then
    if st.depth - 1 = 0 ∧ 0 ≤ st.obj_start then
      ({ st with depth := st.depth - 1, obj_start := -1 },
       some (st.obj_start.toNat, i + 1))
    else ({ st with depth := st.depth - 1 }, none)
  else (st, none)

/-- The `while i < end` loop of `scan_objects` over the remaining characters
`l` (which start at absolute offset `i`), collecting the yielded spans. -/
def scanAux : List Char → Nat → ScanState → List (Nat × Nat)
  | [], _, _ => []
  | c :: rest, i, st =>
    match scanStep st i c with
    | (st', none) => scanAux rest (i + 1) st'
    | (st', some p) => p :: scanAux rest (i + 1) st'

/-- `scan_objects(s, start, end)` (source lines 32-54): yield object strings
`s[obj_start:i+1]` by brace balancing between `[start, end)`; `end = None`
means `len(s)`. The scan is clamped to `len(s)` (beyond it, Python's `s[i]`
would raise; every call site in the source passes `end=None`). -/
def scan_objects (s : List Char) (start : Nat) (endOpt : Option Nat) : List (List Char) :=
  let e := min (endOpt.getD s.length) s.length
  (scanAux ((s.take e).drop start) start initState).map (fun p => (s.take p.2).drop p.1)

/-- The state transition of the automaton ignoring span bookkeeping; used to
express brace balance of a candidate text re-scanned from a fresh state. -/
def state_step (st : ScanState) (c : Char) : ScanState := (scanStep st 0 c).1

/-- Run the automaton over a whole text from the initial state. -/
def run_state (t : List Char) : ScanState := t.foldl state_step initState

/-- One step of counting `\x7b` / `\x7d` characters that occur outside
quoted-string context (as judged by the automaton). -/
def count_step (acc : ScanState × Int × Int) (c : Char) : ScanState × Int × Int :=
  if acc.1.in_str = false ∧ c = '\x7b' then (state_step acc.1 c, acc.2.1 + 1, acc.2.2)
  else if acc.1.in_str = false ∧ c = '\x7d' then (state_step acc.1 c, acc.2.1, acc.2.2 + 1)
  else (state_step acc.1 c, acc.2.1, acc.2.2)

/-- The number of `\x7b` (first) and `\x7d` (second) characters of `t` that
occur outside quoted-string context. -/
def brace_counts (t : List Char) : Int × Int := (t.foldl count_step (initState, 0, 0)).2

/-- Does `pat` occur at the very beginning of `l`? (The prefix test behind
Python's `str.find` / `in`.) -/
def start_match : List Char → List Char → Bool
  | [], _ => true
  | _ :: _, [] => false
  | p :: ps, c :: cs => p == c && start_match ps cs

/-- Worker for Python's `hay.find(needle, i)`: try offsets `i, i+1, ...`;
`fuel` is a structural bound on the number of offsets tried (the wrapper
passes `hay.length + 1`, enough to reach every admissible offset). -/
def find_from_aux (hay needle : List Char) : Nat → Nat → Option Nat
  | 0, _ => none
  | fuel + 1, i =>
    if i + needle.length ≤ hay.length then
      if start_match needle (hay.drop i) then some i
      else find_from_aux hay needle fuel (i + 1)
    else none

/-- Python's `hay.find(needle, i)` returning `none` for `-1`
(used at source lines 27 and 89). -/
def str_find (hay needle : List Char) (i : Nat) : Option Nat :=
  find_from_aux hay needle (hay.length + 1) i

/-- Python's `needle in hay` substring test. -/
def contains_sub (hay needle : List Char) : Bool := (str_find hay needle 0).isSome

/-- Worker for `find_all` (source lines 24-30): collect match offsets,
restarting each search one past the previous hit; `fuel` bounds the number
of iterations (the wrapper passes `hay.length + 1`, enough since offsets
strictly increase and searches past the end fail). -/
def find_all_aux (hay needle : List Char) : Nat → Nat → List Nat
  | 0, _ => []
  | fuel + 1, i =>
    match str_find hay needle i with
    | none => []
    | some j => j :: find_all_aux hay needle fuel (j + 1)

/-- `find_all(hay, needle)` (source lines 24-30): all match offsets of
`needle` in `hay`, left to right, overlapping occurrences included. -/
def find_all (hay needle : List Char) : List Nat := find_all_aux hay needle (hay.length + 1) 0

/-- The quoted key marker `"activityType"` (source line 58). -/
def key_activityType : List Char := "\"activityType\"".toList

/-- The quoted key marker `"activityId"` (source line 58). -/
def key_activityId : List Char := "\"activityId\"".toList

/-- The quoted key marker `"splitSummaries"` (source line 58). -/
def key_splitSummaries : List Char := "\"splitSummaries\"".toList

/-- `looks_like_activity(txt)` (source lines 56-58): the heuristic classifier
keeping only candidate texts that look like full activity records. -/
def looks_like_activity (txt : List Char) : Bool :=
  (contains_sub txt key_activityType || contains_sub txt key_activityId)
    && contains_sub txt key_splitSummaries

/-- The keep-condition of the control-character stripping loop of
`light_cleanup` (source line 64): `c >= " " or c in "\n\t"`. -/
def keep_char (c : Char) : Bool := (' ' ≤ c) || c == '\n' || c == '\t'

/-- The `cleaned` accumulation loop of `light_cleanup` (source lines 62-66). -/
def strip_ctl_chars (txt : List Char) : List Char :=
  txt.foldl (fun cleaned c => if keep_char c then cleaned ++ [c] else cleaned) []

/-- Python's `s.replace(pat, rep)`: replace non-overlapping occurrences left
to right, never re-scanning replacement text; `fuel` is a structural bound on
the scan steps (the wrapper passes `s.length + 1`, enough since every step
consumes at least one character of `s`; every call site in the source passes
a non-empty `pat`, for which this agrees with Python). -/
def replace_all_aux (pat rep : List Char) : Nat → List Char → List Char
  | 0, s => s
  | fuel + 1, s =>
    match s with
    | [] => []
    | c :: cs =>
      if start_match pat s then rep ++ replace_all_aux pat rep fuel (s.drop pat.length)
      else c :: replace_all_aux pat rep fuel cs

/-- Python's `s.replace(pat, rep)` (source lines 67-69). -/
def replace_all (s pat rep : List Char) : List Char := replace_all_aux pat rep (s.length + 1) s

/-- The `'"CELCIUS"' -> '"CELSIUS"'` spelling correction (source line 67). -/
def celcius_fix (txt : List Char) : List Char :=
  replace_all txt "\"CELCIUS\"".toList "\"CELSIUS\"".toList

/-- The stray-`%` removal chain (source line 69):
`,%`→`,`, `%,`→`,`, `%\x7d`→`\x7d`, `\x7b%`→`\x7b`, in that order. -/
def pct_fix (txt : List Char) : List Char :=
  replace_all (replace_all (replace_all (replace_all txt
    ",%".toList ",".toList) "%,".toList ",".toList)
    "%\x7d".toList "\x7d".toList) "\x7b%".toList "\x7b".toList

/-- `light_cleanup(txt)` (source lines 60-70): strip control characters
(keeping newline and tab), fix the CELCIUS misspelling, remove stray `%`
around commas and braces. A total pure function. -/
def light_cleanup (txt : List Char) : List Char :=
  pct_fix (celcius_fix (strip_ctl_chars txt))

/-- `RecoveryStats`: the three counters of `main`
(`total_candidates`, `written`, `skipped`; source line 84). -/
structure Stats where
  total_candidates : Nat
  written : Nat
  skipped : Nat
deriving Repr, DecidableEq

/-- The strict-parse-then-repair-retry of `main` (source lines 98-105): try
`parse` on the raw candidate; on failure, retry exactly once on
`light_cleanup` of it. `parse` is the external `json.loads` oracle. -/
def parse_or_repair {V : Type} (parse : List Char → Option V) (obj : List Char) : Option V :=
  match parse obj with
  | some o => some o
  | none => parse (light_cleanup obj)

/-- The per-candidate body of the emission loops of `main`
(source lines 94-107 and 111-124): count the candidate, drop it unless it
classifies, then parse-or-repair; a success is appended to the output lines,
a second parse failure only increments `skipped`. -/
def emit_step {V : Type} (parse : List Char → Option V)
    (acc : Stats × List V) (obj : List Char) : Stats × List V :=
  let st : Stats := { acc.1 with total_candidates := acc.1.total_candidates + 1 }
  if looks_like_activity obj = false then (st, acc.2)
  else
    match parse_or_repair parse obj with
    | none => ({ st with skipped := st.skipped + 1 }, acc.2)
    | some o => ({ st with written := st.written + 1 }, acc.2 ++ [o])

/-- One emission loop of `main` over a list of candidates, threading the
shared counters and output lines. -/
def process_span {V : Type} (parse : List Char → Option V)
    (cands : List (List Char)) (acc : Stats × List V) : Stats × List V :=
  cands.foldl (emit_step parse) acc

/-- The container key `"summarizedActivitiesExport"` (source line 87). -/
def container_key : List Char := "\"summarizedActivitiesExport\"".toList

/-- The single-character needle `[` of `s.find("[", h)` (source line 89). -/
def left_bracket : List Char := "[".toList

/-- The Anchored tier of `main` (source lines 87-107): for every occurrence
of the container key, find the first `[` after it (skipping the occurrence
if there is none) and run the emission loop over a scan from just past that
bracket to end-of-document. Counters start at zero (source line 84). -/
def anchored_tier {V : Type} (parse : List Char → Option V) (s : List Char) : Stats × List V :=
  (find_all s container_key).foldl
    (fun acc h =>
      match str_find s left_bracket h with
      | none => acc
      | some arr_l => process_span parse (scan_objects s (arr_l + 1) none) acc)
    (⟨0, 0, 0⟩, [])

/-- The ASCII whitespace stripped by Python's `s.lstrip()` (source line 81);
Python additionally strips non-ASCII Unicode whitespace, which does not
occur in the HTML marker comparison. -/
def py_space (c : Char) : Bool :=
  c == ' ' || c == '\t' || c == '\n' || c == '\r' || c == '\x0b' || c == '\x0c'

/-- `s.lstrip().startswith("<!DOCTYPE html")` (source line 81). -/
def html_guard (s : List Char) : Bool :=
  start_match "<!DOCTYPE html".toList (s.dropWhile py_space)

/-- The observable outcome of one run of `main`: the two fatal input checks
(source lines 79-82), or the final counters and emitted lines, split by the
`written == 0` check of source lines 127-129. -/
inductive MainResult (V : Type) where
  | emptyInput : MainResult V
  | htmlInput : MainResult V
  | noRecords : Stats → List V → MainResult V
  | ok : Stats → List V → MainResult V
deriving DecidableEq

/-- The `sys.exit` code of each outcome (source lines 80, 82, 129; a run
that wrote records exits normally). -/
def exit_code {V : Type} : MainResult V → Nat
  | .emptyInput => 1
  | .htmlInput => 2
  | .noRecords _ _ => 3
  | .ok _ _ => 0

/-- The final `written == 0` check of `main` (source lines 127-129). -/
def finish_run {V : Type} (r : Stats × List V) : MainResult V :=
  if r.1.written = 0 then .noRecords r.1 r.2 else .ok r.1 r.2

/-- `main` (source lines 72-129) on the decoded document `s`, with
`json.loads` abstracted as `parse`: the empty-input and HTML short-circuits,
the Anchored tier, the Fallback whole-document tier run exactly when the
Anchored tier wrote nothing (source line 110), and the final outcome. -/
def main_run {V : Type} (parse : List Char → Option V) (s : List Char) : MainResult V :=
  if s = [] then .emptyInput
  else if html_guard s then .htmlInput
  else
    let r1 := anchored_tier parse s
    let r2 := if r1.1.written = 0 then process_span parse (scan_objects s 0 none) r1 else r1
    finish_run r2

/-- The console messages of `main`, in print order: the two early fatal
messages (source lines 80, 82), the one-line summary (source line 126), and
the no-records message (source line 128). -/
inductive Msg where
  | emptyErr : Msg
  | htmlErr : Msg
  | summary : Nat → Nat → Nat → Msg
  | noRecordsErr : Msg
deriving Repr, DecidableEq

/-- The sequence of messages `main` prints, in order (source lines 80, 82,
126, 128): the early exits print only their error; otherwise the one-line
summary is printed, followed by the no-records error exactly on the
`written == 0` exit path. -/
def main_messages {V : Type} (parse : List Char → Option V) (s : List Char) : List Msg :=
  match main_run parse s with
  | .emptyInput => [.emptyErr]
  | .htmlInput => [.htmlErr]
  | .noRecords st _ => [.summary st.total_candidates st.written st.skipped, .noRecordsErr]
  | .ok st _ => [.summary st.total_candidates st.written st.skipped]

/-! ### Specification-side predicates used to state the claims -/

/-- Agreement of two automaton states on the context-tracking fields
(`in_str`, `esc`, `depth`); `obj_start` is excluded, since a fresh re-scan
of a candidate does not reproduce absolute offsets. -/
def dyn_eq (st st' : ScanState) : Prop :=
  st.in_str = st'.in_str ∧ st.esc = st'.esc ∧ st.depth = st'.depth

/-- Loop invariant of `scan_objects` over document `s` at offset `i`: the
escape flag is meaningful only inside strings, and a recorded `obj_start`
points at an earlier `\x7b` of `s` whose fresh re-scan state agrees with
the loop state on the context-tracking fields. -/
def Inv (s : List Char) (i : Nat) (st : ScanState) : Prop :=
  (st.in_str = false → st.esc = false) ∧
  (∀ a : Nat, st.obj_start = (a : Int) →
    a < i ∧ a < s.length ∧ s[a]? = some '\x7b' ∧
    dyn_eq (run_state ((s.take i).drop a)) st)

/-- Soundness of a yielded span `[p.1, p.2)` of document `s`: in bounds,
delimited by `\x7b` and `\x7d`, and brace-balanced (a fresh re-scan of the
spanned text ends at depth zero, outside any string). -/
def GoodSpan (s : List Char) (p : Nat × Nat) : Prop :=
  p.1 < p.2 ∧ p.2 ≤ s.length ∧ s[p.1]? = some '\x7b' ∧ s[p.2 - 1]? = some '\x7d' ∧
  (run_state ((s.take p.2).drop p.1)).depth = 0 ∧
  (run_state ((s.take p.2).drop p.1)).in_str = false

/-! ### Concrete documents used as test inputs -/

/-- One object whose string field value contains literal braces:
`\x7b"a":"x\x7dy\x7bz"\x7d`. -/
def brace_doc : List Char := "\x7b\"a\":\"x\x7dy\x7bz\"\x7d".toList

/-- The same object with the in-string braces removed: `\x7b"a":"xyz"\x7d`. -/
def brace_doc_stripped : List Char := "\x7b\"a\":\"xyz\"\x7d".toList

/-- A text truncated mid-object (no closing brace): `\x7b"a":1`. -/
def trunc_doc : List Char := "\x7b\"a\":1".toList

/-- A text whose string literal is unterminated, hiding the closing brace:
`\x7b"a":"b\x7d`. -/
def unterminated_doc : List Char := "\x7b\"a\":\"b\x7d".toList

/-- A single small balanced object: `\x7b"a":1\x7d`. -/
def small_doc : List Char := "\x7b\"a\":1\x7d".toList

/-- A stray close brace before a balanced object: `\x7d\x7b"a":1\x7d`. -/
def stray_close_doc : List Char := "\x7d\x7b\"a\":1\x7d".toList

/-- A stray close brace before a nested pair of objects:
`\x7d\x7b\x7b"a":1\x7d\x7d`. -/
def stray_close_nested_doc : List Char := "\x7d\x7b\x7b\"a\":1\x7d\x7d".toList

/-- A wrapper object with the container key and a record-identifying field
but no nested-collection marker. -/
def wrapper_obj : List Char :=
  "\x7b\"summarizedActivitiesExport\":1,\"activityId\":7\x7d".toList

/-- A full record-shaped object with both a record-identifying field and the
nested-collection marker. -/
def full_obj : List Char := "\x7b\"activityId\":7,\"splitSummaries\":[]\x7d".toList

/-- A document with two occurrences of the container key whose second array
holds one record; the first anchor's scan span runs to end-of-document and
also covers that record. -/
def doc9 : List Char :=
  "\x7b\"summarizedActivitiesExport\":[],\"summarizedActivitiesExport\":[\x7b\"activityId\":1,\"splitSummaries\":[]\x7d]\x7d".toList

/-- The record contained in the second array of `doc9`. -/
def rec9 : List Char := "\x7b\"activityId\":1,\"splitSummaries\":[]\x7d".toList

/-- A repair demonstration input: a control byte, the CELCIUS misspelling,
and stray `%` next to a comma and a closing brace. -/
def cleanup_demo_in : List Char :=
  "\x7b\"t\":\"CELCIUS\"\x01,%\"v\":1%\x7d".toList

/-- The repaired form of `cleanup_demo_in`. -/
def cleanup_demo_out : List Char := "\x7b\"t\":\"CELSIUS\",\"v\":1\x7d".toList

/-- An HTML error page, as served in place of an export. -/
def html_doc : List Char := "<!DOCTYPE html><html></html>".toList

/-- A `json.loads` oracle that fails on every input. -/
def parse_none : List Char → Option Unit := fun _ => none

/-- A `json.loads` oracle that succeeds on every input. -/
def parse_unit : List Char → Option Unit := fun _ => some ()

/-! ### Scanner lemmas -/

lemma state_step_eq (st : ScanState) (c : Char) : state_step st c = (scanStep st 0 c).1 := rfl

lemma run_state_append (t : List Char) (c : Char) :
    run_state (t ++ [c]) = state_step (run_state t) c := by
  simp [run_state, List.foldl_append, state_step]

lemma scanStep_dyn (r st : ScanState) (i j : Nat) (c : Char) (h : dyn_eq r st) :
    dyn_eq ((scanStep r i c).1) ((scanStep st j c).1) := by
  obtain ⟨b, e, d, o⟩ := r
  obtain ⟨b', e', d', o'⟩ := st
  obtain ⟨h1, h2, h3⟩ := h
  simp only at h1 h2 h3
  subst h1; subst h2; subst h3
  unfold scanStep
  split_ifs <;> simp_all [dyn_eq]

lemma getElem?_lt {s : List Char} {i : Nat} {c : Char} (hc : s[i]? = some c) : i < s.length := by
  by_contra h
  push_neg at h
  rw [List.getElem?_eq_none h] at hc
  exact Option.noConfusion hc

lemma slice_extend (s : List Char) (a i : Nat) (c : Char) (ha : a ≤ i) (hc : s[i]? = some c) :
    (s.take (i + 1)).drop a = (s.take i).drop a ++ [c] := by
  have hi : i < s.length := getElem?_lt hc
  rw [List.take_succ, hc]
  simp only [Option.toList_some]
  rw [List.drop_append_of_le_length (by rw [List.length_take]; omega)]

lemma inv_extend (s : List Char) (i : Nat) (st : ScanState) (c : Char)
    (hc : s[i]? = some c) (hinv : Inv s i st)
    (hob : ((scanStep st i c).1).obj_start = st.obj_start)
    (hesc : ((scanStep st i c).1).in_str = false → ((scanStep st i c).1).esc = false) :
    Inv s (i + 1) (scanStep st i c).1 := by
  refine ⟨hesc, ?_⟩
  intro a ha
  rw [hob] at ha
  obtain ⟨hai, halen, hbrace, hdyn⟩ := hinv.2 a ha
  refine ⟨by omega, halen, hbrace, ?_⟩
  rw [slice_extend s a i c (by omega) hc, run_state_append, state_step_eq]
  exact scanStep_dyn _ _ _ _ _ hdyn

lemma inv_step (s : List Char) (i : Nat) (st : ScanState) (c : Char)
    (hc : s[i]? = some c) (hinv : Inv s i st) :
    Inv s (i + 1) (scanStep st i c).1 := by
  have hi : i < s.length := getElem?_lt hc
  obtain ⟨hesc, hobj⟩ := hinv
  by_cases hstr : st.in_str
  · by_cases he : st.esc
    · exact inv_extend s i st c hc ⟨hesc, hobj⟩ (by simp [scanStep, hstr, he])
        (by simp [scanStep, hstr, he])
    · by_cases hbs : c = '\\'
      · exact inv_extend s i st c hc ⟨hesc, hobj⟩ (by simp [scanStep, hstr, he, hbs])
          (by simp [scanStep, hstr, he, hbs])
      · by_cases hq : c = '"'
        · exact inv_extend s i st c hc ⟨hesc, hobj⟩ (by simp [scanStep, hstr, he, hbs, hq])
            (by simp [scanStep, hstr, he, hbs, hq])
        · exact inv_extend s i st c hc ⟨hesc, hobj⟩ (by simp [scanStep, hstr, he, hbs, hq])
            (by simp [scanStep, hstr, he, hbs, hq, hstr])
  · have hstf : st.in_str = false := by simpa using hstr
    have hef : st.esc = false := hesc hstf
    by_cases hq : c = '"'
    · exact inv_extend s i st c hc ⟨hesc, hobj⟩ (by simp [scanStep, hstf, hq])
        (by simp [scanStep, hstf, hq])
    · by_cases hob : c = '\x7b'
      · by_cases hd : st.depth = 0
        · refine ⟨?_, ?_⟩
          · intro _
            simp [scanStep, hstf, hq, hob, hef]
          · intro a ha
            have hax : ((scanStep st i c).1).obj_start = (i : Int) := by
              simp [scanStep, hstf, hq, hob, hd]
            rw [hax] at ha
            have hai : a = i := by omega
            subst hai
            refine ⟨by omega, hi, by rw [hc, hob], ?_⟩
            have h0 : (s.take a).drop a = [] := by
              apply List.drop_eq_nil_of_le
              rw [List.length_take]
              omega
            rw [slice_extend s a a c (by omega) hc, h0, List.nil_append]
            have hrs : run_state [c] = ⟨false, false, 1, 0⟩ := by
              rw [hob]; decide
            rw [hrs]
            refine ⟨?_, ?_, ?_⟩ <;> simp [scanStep, hstf, hq, hob, hd, hef]
        · exact inv_extend s i st c hc ⟨hesc, hobj⟩ (by simp [scanStep, hstf, hq, hob, hd])
            (by simp [scanStep, hstf, hq, hob, hef])
      · by_cases hcb : c = '\x7d'
        · by_cases hy : st.depth - 1 = 0 ∧ 0 ≤ st.obj_start
          · refine ⟨?_, ?_⟩
            · intro _
              simp [scanStep, hstf, hq, hob, hcb, hy, hef]
            · intro a ha
              have hm : ((scanStep st i c).1).obj_start = (-1 : Int) := by
                simp [scanStep, hstf, hq, hob, hcb, hy]
              rw [hm] at ha
              exact absurd ha (by omega)
          · exact inv_extend s i st c hc ⟨hesc, hobj⟩ (by simp [scanStep, hstf, hq, hob, hcb, hy])
              (by simp [scanStep, hstf, hq, hob, hcb, hy, hef])
        · exact inv_extend s i st c hc ⟨hesc, hobj⟩ (by simp [scanStep, hstf, hq, hob, hcb])
            (by simp [scanStep, hstf, hq, hob, hcb, hef])

lemma state_step_rbrace (r : ScanState) (h : r.in_str = false) :
    (state_step r '\x7d').depth = r.depth - 1 ∧ (state_step r '\x7d').in_str = false := by
  unfold state_step scanStep
  rw [h]
  simp only [Bool.false_eq_true, if_false]
  split_ifs <;> simp_all

lemma yield_good (s : List Char) (i : Nat) (st : ScanState) (c : Char) (p : Nat × Nat)
    (hc : s[i]? = some c) (hinv : Inv s i st)
    (hstep : (scanStep st i c).2 = some p) : GoodSpan s p := by
  have hi : i < s.length := getElem?_lt hc
  obtain ⟨hesc, hobj⟩ := hinv
  by_cases hstr : st.in_str
  · unfold scanStep at hstep
    rw [if_pos hstr] at hstep
    split_ifs at hstep
  · have hstf : st.in_str = false := by simpa using hstr
    by_cases hq : c = '"'
    · simp [scanStep, hstf, hq] at hstep
    · by_cases hob : c = '\x7b'
      · simp [scanStep, hstf, hq, hob] at hstep
      · by_cases hcb : c = '\x7d'
        · by_cases hy : st.depth - 1 = 0 ∧ 0 ≤ st.obj_start
          · obtain ⟨hd0, hge⟩ := hy
            have hp : p = (st.obj_start.toNat, i + 1) := by
              simp [scanStep, hstf, hq, hob, hcb, hd0, hge] at hstep
              exact hstep.symm
            have hoa : st.obj_start = (st.obj_start.toNat : Int) :=
              (Int.toNat_of_nonneg hge).symm
            obtain ⟨hai, halen, hbrace, hdyn⟩ := hobj st.obj_start.toNat hoa
            subst hp
            refine ⟨by omega, by omega, hbrace, ?_, ?_, ?_⟩
            · simpa using (by rw [hc, hcb] : s[i]? = some '\x7d')
            · rw [slice_extend s st.obj_start.toNat i c (by omega) hc, run_state_append, hcb]
              have hr := state_step_rbrace (run_state ((s.take i).drop st.obj_start.toNat))
                (by rw [hdyn.1, hstf])
              rw [hr.1, hdyn.2.2]
              omega
            · rw [slice_extend s st.obj_start.toNat i c (by omega) hc, run_state_append, hcb]
              exact (state_step_rbrace (run_state ((s.take i).drop st.obj_start.toNat))
                (by rw [hdyn.1, hstf])).2
          · simp [scanStep, hstf, hq, hob, hcb, hy] at hstep
        · simp [scanStep, hstf, hq, hob, hcb] at hstep

lemma inv_init (s : List Char) (i : Nat) : Inv s i initState := by
  refine ⟨fun _ => rfl, ?_⟩
  intro a ha
  exfalso
  have hm : initState.obj_start = -1 := rfl
  rw [hm] at ha
  omega

lemma scanAux_good (s : List Char) (e : Nat) (he : e ≤ s.length) :
    ∀ (l : List Char) (i : Nat) (st : ScanState),
      l = (s.take e).drop i → Inv s i st →
      ∀ p ∈ scanAux l i st, GoodSpan s p := by
  intro l
  induction l with
  | nil =>
    intro i st _ _ p hp
    simp [scanAux] at hp
  | cons c rest ih =>
    intro i st hl hinv p hp
    have hlen := congrArg List.length hl
    simp only [List.length_cons, List.length_drop, List.length_take] at hlen
    have hie : i < e := by omega
    have hc : s[i]? = some c := by
      have hh := congrArg List.head? hl
      rw [List.head?_cons, List.head?_eq_getElem?, List.getElem?_drop, Nat.add_zero,
        List.getElem?_take_of_lt hie] at hh
      exact hh.symm
    have hrest : rest = (s.take e).drop (i + 1) := by
      have ht := congrArg List.tail hl
      simpa [List.tail_drop] using ht
    simp only [scanAux] at hp
    rcases hstep : scanStep st i c with ⟨st', oy⟩
    rw [hstep] at hp
    have hst' : st' = (scanStep st i c).1 := by rw [hstep]
    cases oy with
    | none =>
      exact ih (i + 1) st' hrest (hst' ▸ inv_step s i st c hc ⟨hinv.1, hinv.2⟩) p hp
    | some q =>
      rcases List.mem_cons.mp hp with hpq | hp'
      · subst hpq
        exact yield_good s i st c p hc ⟨hinv.1, hinv.2⟩ (by rw [hstep])
      · exact ih (i + 1) st' hrest (hst' ▸ inv_step s i st c hc ⟨hinv.1, hinv.2⟩) p hp'

lemma slice_head (s : List Char) (a b : Nat) (hab : a < b) :
    ((s.take b).drop a).head? = s[a]? := by
  rw [List.head?_eq_getElem?, List.getElem?_drop, Nat.add_zero, List.getElem?_take_of_lt hab]

lemma slice_last (s : List Char) (a b : Nat) (hab : a < b) (hb : b ≤ s.length) :
    ((s.take b).drop a).getLast? = s[b - 1]? := by
  rw [List.getLast?_eq_getElem?]
  have hlen : ((s.take b).drop a).length = b - a := by
    simp only [List.length_drop, List.length_take]
    omega
  rw [hlen, List.getElem?_drop, List.getElem?_take_of_lt (by omega)]
  congr 1
  omega

lemma count_run (t : List Char) :
    ∀ (st : ScanState) (o c : Int),
      (t.foldl count_step (st, o, c)).1 = t.foldl state_step st ∧
      (t.foldl state_step st).depth - st.depth =
        ((t.foldl count_step (st, o, c)).2.1 - o) - ((t.foldl count_step (st, o, c)).2.2 - c) := by
  induction t with
  | nil =>
    intro st o c
    simp
  | cons ch rest ih =>
    intro st o c
    simp only [List.foldl_cons]
    by_cases h1 : st.in_str = false ∧ ch = '\x7b'
    · have hd : (state_step st ch).depth = st.depth + 1 := by
        obtain ⟨hs, hcc⟩ := h1
        unfold state_step scanStep
        rw [hs, hcc]
        simp
      have hcs : count_step (st, o, c) ch = (state_step st ch, o + 1, c) := by
        simp [count_step, h1]
      rw [hcs]
      obtain ⟨ha, hb⟩ := ih (state_step st ch) (o + 1) c
      refine ⟨ha, ?_⟩
      omega
    · by_cases h2 : st.in_str = false ∧ ch = '\x7d'
      · have hd : (state_step st ch).depth = st.depth - 1 := by
          obtain ⟨hs, hcc⟩ := h2
          subst hcc
          exact (state_step_rbrace st hs).1
        have hcs : count_step (st, o, c) ch = (state_step st ch, o, c + 1) := by
          simp [count_step, h1, h2]
        rw [hcs]
        obtain ⟨ha, hb⟩ := ih (state_step st ch) o (c + 1)
        refine ⟨ha, ?_⟩
        omega
      · have hd : (state_step st ch).depth = st.depth := by
          unfold state_step scanStep
          by_cases hs : st.in_str
          · rw [if_pos hs]
            split_ifs <;> rfl
          · have hsf : st.in_str = false := by simpa using hs
            simp only [hsf, Bool.false_eq_true, if_false]
            split_ifs <;> simp_all
        have hcs : count_step (st, o, c) ch = (state_step st ch, o, c) := by
          simp [count_step, h1, h2]
        rw [hcs]
        obtain ⟨ha, hb⟩ := ih (state_step st ch) o c
        refine ⟨ha, ?_⟩
        omega

lemma run_depth_counts (t : List Char) (h : (run_state t).depth = 0) :
    (brace_counts t).1 = (brace_counts t).2 := by
  obtain ⟨_, hb⟩ := count_run t initState 0 0
  have h0 : initState.depth = 0 := rfl
  rw [h0] at hb
  have hr : run_state t = t.foldl state_step initState := rfl
  rw [← hr, h] at hb
  simp only [brace_counts]
  omega

lemma scan_objects_good (s : List Char) (start : Nat) (eo : Option Nat) (t : List Char)
    (ht : t ∈ scan_objects s start eo) :
    ∃ a b : Nat, a < b ∧ b ≤ s.length ∧ t = (s.take b).drop a ∧ GoodSpan s (a, b) := by
  simp only [scan_objects, List.mem_map] at ht
  obtain ⟨p, hp, hpt⟩ := ht
  have hg : GoodSpan s p :=
    scanAux_good s (min (eo.getD s.length) s.length) (by omega) _ start initState rfl
      (inv_init s start) p hp
  exact ⟨p.1, p.2, hg.1, hg.2.1, hpt.symm, hg⟩

/-! ### Substring-search and repair lemmas -/

lemma start_match_iff : ∀ (p l : List Char), start_match p l = true ↔ l.take p.length = p := by
  intro p
  induction p with
  | nil =>
    intro l
    simp [start_match]
  | cons x xs ih =>
    intro l
    cases l with
    | nil => simp [start_match]
    | cons y ys =>
      simp only [start_match, List.length_cons, List.take_succ_cons, Bool.and_eq_true,
        beq_iff_eq, List.cons.injEq]
      rw [ih ys]
      constructor
      · rintro ⟨h1, h2⟩
        exact ⟨h1.symm, h2⟩
      · rintro ⟨h1, h2⟩
        exact ⟨h1.symm, h2⟩

lemma find_from_aux_some (hay needle : List Char) :
    ∀ (fuel i j : Nat), find_from_aux hay needle fuel i = some j →
      i ≤ j ∧ j + needle.length ≤ hay.length ∧ start_match needle (hay.drop j) = true := by
  intro fuel
  induction fuel with
  | zero =>
    intro i j h
    simp [find_from_aux] at h
  | succ n ih =>
    intro i j h
    simp only [find_from_aux] at h
    split_ifs at h with h1 h2
    · injection h with h
      subst h
      exact ⟨le_refl _, h1, h2⟩
    · obtain ⟨hij, hj1, hj2⟩ := ih (i + 1) j h
      exact ⟨by omega, hj1, hj2⟩

lemma find_from_aux_isSome (hay needle : List Char) (j : Nat)
    (hj : j + needle.length ≤ hay.length) (hm : start_match needle (hay.drop j) = true) :
    ∀ (fuel i : Nat), i ≤ j → hay.length + 1 - i ≤ fuel →
      (find_from_aux hay needle fuel i).isSome = true := by
  intro fuel
  induction fuel with
  | zero =>
    intro i hij hf
    exfalso
    omega
  | succ n ih =>
    intro i hij hf
    simp only [find_from_aux]
    split_ifs with h1 h2
    · simp
    · have hne : i ≠ j := fun he => by rw [he, hm] at h2; exact h2 rfl
      exact ih (i + 1) (by omega) (by omega)
    · exfalso
      omega

lemma contains_sub_iff (hay needle : List Char) :
    contains_sub hay needle = true ↔ ∃ u v : List Char, hay = u ++ needle ++ v := by
  constructor
  · intro h
    simp only [contains_sub, Option.isSome_iff_exists] at h
    obtain ⟨j, hj⟩ := h
    obtain ⟨_, hjl, hsm⟩ := find_from_aux_some hay needle _ 0 j hj
    rw [start_match_iff] at hsm
    refine ⟨hay.take j, (hay.drop j).drop needle.length, ?_⟩
    have hsplit : hay.drop j = needle ++ (hay.drop j).drop needle.length := by
      conv_lhs => rw [← List.take_append_drop needle.length (hay.drop j)]
      rw [hsm]
    calc hay = hay.take j ++ hay.drop j := (List.take_append_drop j hay).symm
      _ = hay.take j ++ (needle ++ (hay.drop j).drop needle.length) := by rw [← hsplit]
      _ = hay.take j ++ needle ++ (hay.drop j).drop needle.length := by
          rw [List.append_assoc]
  · rintro ⟨u, v, rfl⟩
    simp only [contains_sub, str_find]
    apply find_from_aux_isSome (u ++ needle ++ v) needle u.length
    · simp [List.length_append]
    · rw [start_match_iff, List.append_assoc, List.drop_left, List.take_left]
    · omega
    · omega

lemma strip_ctl_filter : ∀ t : List Char, strip_ctl_chars t = t.filter keep_char := by
  have hgen : ∀ (t acc : List Char),
      t.foldl (fun cleaned c => if keep_char c then cleaned ++ [c] else cleaned) acc
        = acc ++ t.filter keep_char := by
    intro t
    induction t with
    | nil =>
      intro acc
      simp
    | cons c cs ih =>
      intro acc
      simp only [List.foldl_cons, List.filter_cons]
      by_cases h : keep_char c
      · rw [if_pos h, if_pos h, ih]
        simp
      · rw [if_neg h, if_neg h, ih]
  intro t
  simpa [strip_ctl_chars] using hgen t []

/-! ### Claim theorems -/

/-- C1: brace characters inside a double-quoted string literal (including
right after a backslash escape) never change the scanner's depth counter nor
its recorded object start, and never cause a yield; consequently an object
whose string field value contains literal braces is yielded with exactly the
outer object's boundaries, the same as when those braces are absent. -/
theorem in_string_braces_inert :
    (∀ (st : ScanState) (i : Nat) (c : Char), st.in_str = true →
        (scanStep st i c).1.depth = st.depth ∧
        (scanStep st i c).1.obj_start = st.obj_start ∧
        (scanStep st i c).2 = none)
    ∧ scan_objects brace_doc 0 none = [brace_doc]
    ∧ scan_objects brace_doc_stripped 0 none = [brace_doc_stripped] := by
  refine ⟨?_, by decide, by decide⟩
  intro st i c hstr
  unfold scanStep
  rw [if_pos hstr]
  split_ifs <;> simp

theorem in_string_braces_inert_witness :
    (scanStep ⟨true, false, 1, 0⟩ 6 '\x7d').1.depth = 1 ∧
    (scanStep ⟨true, false, 1, 0⟩ 6 '\x7d').1.obj_start = 0 ∧
    (scanStep ⟨true, false, 1, 0⟩ 6 '\x7d').2 = none :=
  in_string_braces_inert.1 ⟨true, false, 1, 0⟩ 6 '\x7d' rfl

/-- C2: every candidate yielded by `scan_objects` over any span is a
contiguous substring of the document that starts with `\x7b`, ends with
`\x7d`, and whose counts of braces outside quoted-string context are equal;
truncated or unterminated trailing objects are never yielded. -/
theorem scan_candidates_balanced_complete :
    (∀ (s : List Char) (start : Nat) (eo : Option Nat) (t : List Char),
        t ∈ scan_objects s start eo →
        (∃ a b : Nat, a < b ∧ b ≤ s.length ∧ t = (s.take b).drop a) ∧
        t.head? = some '\x7b' ∧ t.getLast? = some '\x7d' ∧
        (brace_counts t).1 = (brace_counts t).2)
    ∧ scan_objects trunc_doc 0 none = []
    ∧ scan_objects unterminated_doc 0 none = [] := by
  refine ⟨?_, by decide, by decide⟩
  intro s start eo t ht
  obtain ⟨a, b, hab, hb, hteq, hg⟩ := scan_objects_good s start eo t ht
  obtain ⟨_, _, hbr1, hbr2, hdep, _⟩ := hg
  refine ⟨⟨a, b, hab, hb, hteq⟩, ?_, ?_, ?_⟩
  · rw [hteq, slice_head s a b hab]
    exact hbr1
  · rw [hteq, slice_last s a b hab hb]
    exact hbr2
  · exact run_depth_counts t (by rw [hteq]; exact hdep)

theorem scan_candidates_balanced_complete_witness :
    (∃ a b : Nat, a < b ∧ b ≤ small_doc.length ∧ small_doc = (small_doc.take b).drop a) ∧
    small_doc.head? = some '\x7b' ∧ small_doc.getLast? = some '\x7d' ∧
    (brace_counts small_doc).1 = (brace_counts small_doc).2 :=
  scan_candidates_balanced_complete.1 small_doc 0 none small_doc (by decide)

/-- C3: the classifier accepts a candidate text exactly when it contains the
quoted `activityType` or `activityId` marker and also contains the quoted
`splitSummaries` marker; it rejects a wrapper object lacking the latter and
accepts an object containing both. -/
theorem looks_like_activity_characterization :
    (∀ t : List Char, looks_like_activity t = true ↔
        ((∃ u v : List Char, t = u ++ key_activityType ++ v) ∨
         (∃ u v : List Char, t = u ++ key_activityId ++ v)) ∧
        (∃ u v : List Char, t = u ++ key_splitSummaries ++ v))
    ∧ looks_like_activity wrapper_obj = false
    ∧ looks_like_activity full_obj = true := by
  refine ⟨?_, by decide, by decide⟩
  intro t
  simp only [looks_like_activity, Bool.and_eq_true, Bool.or_eq_true, contains_sub_iff]

/-- C4: repair is applied only when the first strict parse fails (a first
success is returned unchanged); after repair, strict parsing is retried
exactly once, on the repaired text; a second failure increments `skipped` by
exactly one and drops the candidate; processing then continues with the
remaining candidates, so a per-candidate failure is never fatal. -/
theorem parse_repair_retry_policy :
    (∀ (V : Type) (parse : List Char → Option V) (obj : List Char) (o : V),
        parse obj = some o → parse_or_repair parse obj = some o)
    ∧ (∀ (V : Type) (parse : List Char → Option V) (obj : List Char),
        parse obj = none → parse_or_repair parse obj = parse (light_cleanup obj))
    ∧ (∀ (V : Type) (parse : List Char → Option V) (acc : Stats × List V) (obj : List Char),
        looks_like_activity obj = true → parse obj = none →
        parse (light_cleanup obj) = none →
        emit_step parse acc obj =
          ({ acc.1 with total_candidates := acc.1.total_candidates + 1,
                        skipped := acc.1.skipped + 1 }, acc.2))
    ∧ (∀ (V : Type) (parse : List Char → Option V) (acc : Stats × List V)
        (obj : List Char) (rest : List (List Char)),
        process_span parse (obj :: rest) acc = process_span parse rest (emit_step parse acc obj)) := by
  refine ⟨?_, ?_, ?_, ?_⟩
  · intro V parse obj o h
    simp [parse_or_repair, h]
  · intro V parse obj h
    simp [parse_or_repair, h]
  · intro V parse acc obj h1 h2 h3
    simp [emit_step, h1, parse_or_repair, h2, h3]
  · intro V parse acc obj rest
    rfl

theorem parse_repair_retry_policy_witness :
    parse_or_repair parse_unit full_obj = some () ∧
    emit_step parse_none (⟨0, 0, 0⟩, []) full_obj = (⟨1, 0, 1⟩, []) := by
  constructor
  · exact parse_repair_retry_policy.1 Unit parse_unit full_obj () rfl
  · have h := parse_repair_retry_policy.2.2.1 Unit parse_none (⟨0, 0, 0⟩, []) full_obj
      (by decide) rfl rfl
    simpa using h

/-- C5: the Fallback whole-document rescan runs exactly when the Anchored
tier wrote zero records — in particular when zero container-key anchors were
found — and is skipped whenever the Anchored tier wrote at least one. -/
theorem fallback_iff_anchored_zero :
    ∀ (V : Type) (parse : List Char → Option V) (s : List Char),
      s ≠ [] → html_guard s = false →
      ((anchored_tier parse s).1.written = 0 →
        main_run parse s =
          finish_run (process_span parse (scan_objects s 0 none) (anchored_tier parse s)))
      ∧ ((anchored_tier parse s).1.written ≠ 0 →
        main_run parse s = finish_run (anchored_tier parse s))
      ∧ (find_all s container_key = [] → (anchored_tier parse s).1.written = 0) := by
  intro V parse s hs hh
  refine ⟨?_, ?_, ?_⟩
  · intro h0
    simp [main_run, hs, hh, h0]
  · intro h0
    simp [main_run, hs, hh, h0]
  · intro hfa
    simp [anchored_tier, hfa]

theorem fallback_iff_anchored_zero_witness :
    ((anchored_tier parse_none ['x']).1.written = 0 →
      main_run parse_none ['x'] =
        finish_run (process_span parse_none (scan_objects ['x'] 0 none)
          (anchored_tier parse_none ['x'])))
    ∧ ((anchored_tier parse_none ['x']).1.written ≠ 0 →
      main_run parse_none ['x'] = finish_run (anchored_tier parse_none ['x']))
    ∧ (find_all ['x'] container_key = [] → (anchored_tier parse_none ['x']).1.written = 0) :=
  fallback_iff_anchored_zero Unit parse_none ['x'] (by decide) (by decide)

/-- C6: an empty document yields the distinct empty-input failure before any
scanning; an HTML page yields the distinct not-a-data-export failure before
any scanning; otherwise the run ends in the distinct no-records failure
exactly when zero records were written after both tiers, and succeeds
whenever at least one was written, regardless of the skipped count. The four
outcomes carry pairwise distinct exit codes. -/
theorem main_result_characterization :
    (∀ (V : Type) (parse : List Char → Option V) (s : List Char),
        (s = [] → main_run parse s = MainResult.emptyInput) ∧
        (s ≠ [] → html_guard s = true → main_run parse s = MainResult.htmlInput) ∧
        (s ≠ [] → html_guard s = false →
          (∃ st out, main_run parse s = MainResult.noRecords st out ∧ st.written = 0) ∨
          (∃ st out, main_run parse s = MainResult.ok st out ∧ 1 ≤ st.written)))
    ∧ (∀ (st : Stats) (out : List Unit),
        exit_code (MainResult.emptyInput : MainResult Unit) = 1 ∧
        exit_code (MainResult.htmlInput : MainResult Unit) = 2 ∧
        exit_code (MainResult.noRecords st out) = 3 ∧
        exit_code (MainResult.ok st out) = 0) := by
  refine ⟨?_, fun st out => ⟨rfl, rfl, rfl, rfl⟩⟩
  intro V parse s
  refine ⟨?_, ?_, ?_⟩
  · intro h
    simp [main_run, h]
  · intro hne hh
    simp [main_run, hne, hh]
  · intro hne hh
    have hm : main_run parse s = finish_run
        (if (anchored_tier parse s).1.written = 0 then
          process_span parse (scan_objects s 0 none) (anchored_tier parse s)
        else anchored_tier parse s) := by
      simp [main_run, hne, hh]
    generalize hr : (if (anchored_tier parse s).1.written = 0 then
        process_span parse (scan_objects s 0 none) (anchored_tier parse s)
      else anchored_tier parse s) = r2 at hm
    by_cases hw : r2.1.written = 0
    · exact Or.inl ⟨r2.1, r2.2, by rw [hm]; simp [finish_run, hw], hw⟩
    · exact Or.inr ⟨r2.1, r2.2, by rw [hm]; simp [finish_run, hw], by omega⟩

theorem main_result_characterization_witness :
    main_run parse_none ([] : List Char) = MainResult.emptyInput ∧
    main_run parse_none html_doc = MainResult.htmlInput ∧
    ((∃ st out, main_run parse_none ['x'] = MainResult.noRecords st out ∧ st.written = 0) ∨
     (∃ st out, main_run parse_none ['x'] = MainResult.ok st out ∧ 1 ≤ st.written)) :=
  ⟨(main_result_characterization.1 Unit parse_none []).1 rfl,
   (main_result_characterization.1 Unit parse_none html_doc).2.1 (by decide) (by decide),
   (main_result_characterization.1 Unit parse_none ['x']).2.2 (by decide) (by decide)⟩

/-- C7: the repairer is a total pure function equal to the composition of its
three stages; stage one keeps exactly the characters at or above the space
code point plus newline and tab (dropping every other control character);
stages two and three fix the CELCIUS misspelling and strip stray `%` next to
commas and braces, demonstrated on a concrete corrupted candidate. -/
theorem light_cleanup_stages :
    (∀ t : List Char, light_cleanup t = pct_fix (celcius_fix (strip_ctl_chars t)))
    ∧ (∀ t : List Char, strip_ctl_chars t = t.filter keep_char)
    ∧ (∀ c : Char, keep_char c = false ↔ (c < ' ' ∧ c ≠ '\n' ∧ c ≠ '\t'))
    ∧ light_cleanup cleanup_demo_in = cleanup_demo_out := by
  refine ⟨fun t => rfl, strip_ctl_filter, ?_, by decide⟩
  intro c
  simp [keep_char, not_le, and_assoc]

/-- C9: with two container-key anchors in the document, each anchored scan
runs from just past its `[` to end-of-document (offsets 31 and 63 here), so
the record in the second array is yielded by both scans and is counted and
emitted twice by the pipeline. -/
theorem anchored_double_emission :
    (find_all doc9 container_key).length = 2 ∧
    scan_objects doc9 31 none = [rec9] ∧
    scan_objects doc9 63 none = [rec9] ∧
    main_run (fun t => some t) doc9 = MainResult.ok ⟨2, 2, 0⟩ [rec9, rec9] := by
  refine ⟨by decide, by decide, by decide, by decide⟩

/-- C10: the scanner does not guard against negative depth: a stray `\x7d`
at depth zero drives the depth to `-1`; the span `\x7d\x7b"a":1\x7d` yields
no candidate at all, and `\x7d\x7b\x7b"a":1\x7d\x7d` yields only the nested
inner object instead of the outer one. -/
theorem scanner_unguarded_negative_depth :
    (scanStep initState 0 '\x7d').1.depth = -1 ∧
    scan_objects stray_close_doc 0 none = [] ∧
    scan_objects stray_close_nested_doc 0 none = [small_doc] := by
  refine ⟨by decide, by decide, by decide⟩

/-- C8 counterexample: on the empty-input and HTML failure paths the run
exits with only its error message — no one-line summary is printed, contrary
to the claim that the summary precedes every failure exit. -/
theorem summary_missing_on_early_failures :
    main_messages parse_none ([] : List Char) = [Msg.emptyErr] ∧
    main_messages parse_none html_doc = [Msg.htmlErr] ∧
    exit_code (main_run parse_none ([] : List Char)) = 1 ∧
    exit_code (main_run parse_none html_doc) = 2 := by
  refine ⟨by decide, by decide, by decide, by decide⟩

/-- C8 (amended): the one-line summary is printed before the failure exit on
the no-records-recovered path; the empty-input and HTML-page failures abort
before any scanning and print only their own error message. -/
theorem summary_before_failure_amended :
    ∀ (V : Type) (parse : List Char → Option V) (s : List Char),
      (∀ st out, main_run parse s = MainResult.noRecords st out →
        main_messages parse s =
          [Msg.summary st.total_candidates st.written st.skipped, Msg.noRecordsErr])
      ∧ (main_run parse s = MainResult.emptyInput → main_messages parse s = [Msg.emptyErr])
      ∧ (main_run parse s = MainResult.htmlInput → main_messages parse s = [Msg.htmlErr]) := by
  intro V parse s
  refine ⟨?_, ?_, ?_⟩
  · intro st out h
    simp [main_messages, h]
  · intro h
    simp [main_messages, h]
  · intro h
    simp [main_messages, h]

theorem summary_before_failure_amended_witness :
    main_messages parse_none ['x'] = [Msg.summary 0 0 0, Msg.noRecordsErr] :=
  (summary_before_failure_amended Unit parse_none ['x']).1 ⟨0, 0, 0⟩ [] (by decide)

end RunCoach
